import Mathlib

/-!
Verification of the workflow execution engine of a no-code AI workflow
builder.  The engine (file `workflowExecutor.ts`) executes a directed
graph of task nodes: it finds the start node (a node with no incoming
edge), schedules nodes through a FIFO queue with dependency gating,
dispatches each node to a registered task handler, routes to next nodes
along edges whose condition matches the outcome of the node
(success / error / always), persists per-node results and a run record,
and returns the in-memory map of per-node results.

The embedding below mirrors that module one function at a time:
`findNextNodes`, `findStartNode`, `processPromptTemplate`,
`executeTask` (including the context-prepend block), the scheduling
loop of `executeWorkflow`, and the surrounding persistence and toast
side effects.  Side effects are made explicit:

* persistence writes become `DocEvent` values accumulated in a trace,
  with an environment flag `storeOk` saying whether the per-node
  `createDocument` call for a given node id succeeds (a failing write
  throws in the source, which the embedding models by aborting the
  loop with `failed := some msg`, exactly like the try/catch of the
  source);
* `toast` calls become strings accumulated in a trace;
* the task-handler registry becomes an explicit function argument;
* `ID.unique()` and `new Date().toISOString()` become the environment
  fields `executionId` and `now`;
* the scheduling loop, a `while` loop in the source, is written with
  explicit fuel (the loop has no structural termination measure valid
  for arbitrary states because of its requeue branch; the theorems
  below prove that fuel `nodes.length + 1` always suffices and that
  the requeue branch is never taken).

The trace additionally logs, for the termination and no-duplicate
theorems, each dispatch of `executeTask` (`invoked`), each addition to
the `enqueued` set (`enqueueLog`), and each pass through the requeue
branch (`requeues`).

The `temperature` task parameter (a float that the engine merely passes
through to the completion provider and never inspects) is not part of
the embedding; no claim mentions it.
-/

namespace Workflow

/-- Task parameters carried in `node.data.parameters`. -/
structure Params where
  prompt : Option String := none
  model : Option String := none
  maxTokens : Option Nat := none
deriving DecidableEq, Repr

/-- The `data` object of a react-flow node as the engine reads it.
`targetHandle` records the truthiness of `node.data?.targetHandle`. -/
structure NodeData where
  parameters : Option Params := none
  label : Option String := none
  targetHandle : Bool := false
deriving DecidableEq, Repr

/-- A workflow node. -/
structure Node where
  id : String
  type : Option String := none
  data : Option NodeData := none
deriving DecidableEq, Repr

/-- The `data` object of a react-flow edge as the engine reads it. -/
structure EdgeData where
  condition : Option String := none
deriving DecidableEq, Repr

/-- A workflow edge. -/
structure Edge where
  id : String := ""
  source : String
  target : String
  data : Option EdgeData := none
deriving DecidableEq, Repr

/-- The `data` field of a successful `TaskResult`. -/
structure TaskData where
  text : String
  tokens : Nat := 0
  model : String := ""
deriving DecidableEq, Repr

/-- The `metadata` field of a `TaskResult`. -/
structure TaskMeta where
  nodeId : String
  executionId : String
  timestamp : String
  taskType : Option String := none
deriving DecidableEq, Repr

/-- Result of one task execution. -/
structure TaskResult where
  success : Bool
  data : Option TaskData := none
  error : Option String := none
  metadata : TaskMeta
deriving DecidableEq, Repr

/-- The `Record<string, TaskResult>` results map, as an association list
in key-insertion order (the iteration order of `Object.entries`). -/
abbrev ResultsMap := List (String × TaskResult)

/-- Key lookup in a results map (`previousResults[nodeId]`). -/
def lookupResult (m : ResultsMap) (k : String) : Option TaskResult :=
  (m.find? (fun p => p.1 = k)).map (fun p => p.2)

/-- Key assignment in a results map (`results[nodeId] = result`):
replaces the binding in place when the key is present, otherwise
appends it, as a JavaScript object does. -/
def setResult (m : ResultsMap) (k : String) (v : TaskResult) : ResultsMap :=
  if (m.find? (fun p => p.1 = k)).isSome then
    m.map (fun p => if p.1 = k then (k, v) else p)
  else m ++ [(k, v)]

/-- Configuration handed to a task handler. -/
structure TaskConfig where
  type : String
  nodeId : String
  parameters : Params
deriving DecidableEq, Repr

/-- A task handler: `handler.execute(config, previousResults)`.  The
handlers the engine dispatches to are modelled as pure functions. -/
abbrev TaskHandler := TaskConfig → ResultsMap → TaskResult

/-- The task-handler registry `taskHandlers`, passed explicitly. -/
abbrev HandlerRegistry := String → Option TaskHandler

/-- Per-run environment: the generated execution id, the wall clock
rendered by `new Date().toISOString()`, and for each node id whether
the per-node persistence write (`storeWorkflowResult`) succeeds. -/
structure Env where
  executionId : String := "exec"
  now : String := "now"
  storeOk : String → Bool := fun _ => true

/-- The `options` argument of `executeWorkflow`. -/
structure ExecOptions where
  openAIApiKey : Option String := none
  userId : Option String := none

/-- The raw condition attached to an edge: `edge.data?.condition`. -/
def edgeRawCondition (e : Edge) : Option String :=
  match e.data with
  | none => none
  | some d => d.condition

/-- The edge-traversability test inlined in `findNextNodes`:
`edgeCondition = edge.data?.condition || "always"` (so an unset or
empty condition defaults to `"always"`), and the edge passes iff
`edgeCondition === "always" || edgeCondition === condition`. -/
def isTraversable (e : Edge) (condition : String) : Bool :=
  let edgeCondition :=
    match edgeRawCondition e with
    | none => "always"
    | some s => if s = "" then "always" else s
  edgeCondition = "always" || edgeCondition = condition

/-- `findNextNodes`: target nodes of the outgoing edges of `nodeId`
whose condition matches the outcome. -/
def findNextNodes (nodeId : String) (edges : List Edge) (nodes : List Node)
    (condition : String) : List Node :=
  let outgoingEdges := edges.filter (fun e => e.source = nodeId)
  let validEdges := outgoingEdges.filter (fun e => isTraversable e condition)
  let nextNodeIds := validEdges.map (fun e => e.target)
  nodes.filter (fun n => nextNodeIds.contains n.id)

/-- `findStartNode`: the first node with no incoming edge, if any. -/
def findStartNode (nodes : List Node) (edges : List Edge) : Option Node :=
  let nodesWithIncomingEdges := edges.map (fun e => e.target)
  let startNodes := nodes.filter (fun n => !(nodesWithIncomingEdges.contains n.id))
  startNodes.head?

/-- Word characters of the template pattern: the JavaScript regex
class backslash-w, that is ASCII letters, digits and underscore. -/
def isWordChar (c : Char) : Bool := c.isAlphanum || c = '_'

/-- Replacement text for one matched placeholder, from the callback of
`processPromptTemplate`: when the results map holds a result with a
`data` field for the referenced id, the text of that data (the
`|| ""` of the source collapses, since an empty text is replaced by
the empty string either way); otherwise the original match. -/
def templateReplacement (m : ResultsMap) (w : List Char) : List Char :=
  match lookupResult m (String.mk w) with
  | some r =>
    match r.data with
    | some d => d.text.data
    | none => '{' :: '{' :: (w ++ ['}', '}'])
  | none => '{' :: '{' :: (w ++ ['}', '}'])

/-- Left-to-right global scan of the template regex (two opening
braces, one or more word characters, two closing braces) over the
prompt, replacing each non-overlapping match via
`templateReplacement`.  The fuel argument (instantiated with the
length of the scanned list, which bounds the number of steps) makes
the recursion structural so that the function evaluates by `decide`
and `rfl`. -/
def scanTemplate (m : ResultsMap) : Nat → List Char → List Char
  | 0, l => l
  | _ + 1, [] => []
  | fuel + 1, c :: cs =>
    if c = '{' then
      match cs with
      | '{' :: cs2 =>
        match cs2.takeWhile isWordChar, cs2.dropWhile isWordChar with
        | w@(_ :: _), '}' :: '}' :: rest =>
          templateReplacement m w ++ scanTemplate m fuel rest
        | _, _ => c :: scanTemplate m fuel cs
      | _ => c :: scanTemplate m fuel cs
    else c :: scanTemplate m fuel cs

/-- `processPromptTemplate`: replace `\x7b\x7bnodeId\x7d\x7d`
placeholders in the prompt by the text of the referenced previous
result, leaving unmatched placeholders verbatim. -/
def processPromptTemplate (prompt : String) (previousResults : ResultsMap) : String :=
  String.mk (scanTemplate previousResults prompt.data.length prompt.data)

/-- `node.type || "aiTask"`. -/
def nodeType (node : Node) : String :=
  match node.type with
  | none => "aiTask"
  | some t => if t = "" then "aiTask" else t

/-- Truthiness of `node.data?.targetHandle`. -/
def nodeTargetHandle (node : Node) : Bool :=
  match node.data with
  | none => false
  | some d => d.targetHandle

/-- `\x7b ...node.data?.parameters \x7d`: the parameters of the node,
an all-absent record when the node has none. -/
def nodeParams (node : Node) : Params :=
  match node.data with
  | none => {}
  | some d => d.parameters.getD {}

/-- Truthiness of `previousResults[k].data?.text`: a result is present
for `k`, carries a `data` field, and its text is non-empty. -/
def resultTextTruthy (m : ResultsMap) (k : String) : Bool :=
  match lookupResult m k with
  | some r =>
    match r.data with
    | some d => !(d.text = "")
    | none => false
  | none => false

/-- The entries of `previousResults` selected for the context prepend
in `executeTask`: none at all when the node has a truthy
`targetHandle`, otherwise the entries other than the node itself whose
looked-up result has truthy text. -/
def contextEntries (node : Node) (previousResults : ResultsMap) : ResultsMap :=
  if nodeTargetHandle node then []
  else previousResults.filter
    (fun e => !(node.id = e.1) && resultTextTruthy previousResults e.1)

/-- One context block of the prepend, from the template string
interpolating `result.data?.text` of the entry.  The `undefined`
branch mirrors the JavaScript interpolation of a missing field; it is
unreachable for maps with unique keys, where the filtered entry equals
its own lookup and therefore carries data. -/
def contextBlock (e : String × TaskResult) : String :=
  "Previous result:\n" ++
    (match e.2.data with
     | some d => d.text
     | none => "undefined")

/-- The prompt-processing front half of `executeTask`: template
substitution followed by the context prepend, applied only when the
node has a truthy (non-empty) prompt. -/
def buildTaskParams (node : Node) (previousResults : ResultsMap) : Params :=
  let parameters := nodeParams node
  match parameters.prompt with
  | some p =>
    if p = "" then parameters
    else
      let p1 := processPromptTemplate p previousResults
      let incomingEdges := contextEntries node previousResults
      if incomingEdges.length > 0 then
        let context := String.intercalate "\n\n" (incomingEdges.map contextBlock)
        { parameters with
          prompt := some (context ++ "\n\nBased on the above context:\n" ++ p1) }
      else
        { parameters with prompt := some p1 }
  | none => parameters

/-- The prompt `executeTask` hands to the task handler. -/
def effectivePrompt (node : Node) (previousResults : ResultsMap) : Option String :=
  (buildTaskParams node previousResults).prompt

/-- `node.data?.label || node.id`, the argument of the `toast.info`
emitted before dispatching to a handler. -/
def nodeLabel (node : Node) : String :=
  match node.data with
  | some d =>
    match d.label with
    | some l => if l = "" then node.id else l
    | none => node.id
  | none => node.id

/-- `executeTask`: process the parameters, look up the handler for the
node type; with no handler return the failed no-handler result (no
exception), otherwise dispatch.  The second component is the list of
toast messages the call emits. -/
def executeTask (handlers : HandlerRegistry) (env : Env) (node : Node)
    (previousResults : ResultsMap) : TaskResult × List String :=
  let nType := nodeType node
  let parameters := buildTaskParams node previousResults
  let taskConfig : TaskConfig :=
    { type := nType, nodeId := node.id, parameters := parameters }
  match handlers nType with
  | none =>
    ({ success := false,
       error := some ("No handler for task type: " ++ nType),
       metadata := { nodeId := node.id, executionId := "", timestamp := env.now } },
     [])
  | some handler =>
    (handler taskConfig previousResults, ["Executing node: " ++ nodeLabel node])

/-- An entry of the scheduling queue. -/
structure QueueItem where
  node : Node
  dependencies : List String
deriving DecidableEq, Repr

/-- A persistence write, in the order the engine issues it: the
initial run record (status running), one record per stored node
result, and the final update of the run record. -/
inductive DocEvent where
  | runCreated (executionId : String)
  | nodeResult (nodeId : String) (success : Bool)
  | runUpdated (status : String) (error : String)
deriving DecidableEq, Repr

/-- State of the scheduling loop, together with the observation trace
(toasts, persistence writes, dispatch log, enqueue log, requeue
count, pending thrown error). -/
structure LoopState where
  queue : List QueueItem
  enqueued : List String
  executed : List String
  results : ResultsMap
  invoked : List String
  enqueueLog : List String
  requeues : Nat
  docs : List DocEvent
  toasts : List String
  failed : Option String
deriving Repr

/-- The for-loop over `nextNodes` at the bottom of the scheduling
loop: push every next node not yet enqueued, with the current node as
its dependency, and mark it enqueued. -/
def enqueueNextNodes (currentId : String) :
    List Node → List QueueItem → List String → List String →
    List QueueItem × List String × List String
  | [], queue, enqueued, log => (queue, enqueued, log)
  | nextNode :: rest, queue, enqueued, log =>
    if enqueued.contains nextNode.id then
      enqueueNextNodes currentId rest queue enqueued log
    else
      enqueueNextNodes currentId rest
        (queue ++ [{ node := nextNode, dependencies := [currentId] }])
        (enqueued ++ [nextNode.id])
        (log ++ [nextNode.id])

/-- The `while (queue.length > 0)` scheduling loop.  Pop the head;
requeue it when a dependency is not yet executed; otherwise run
`executeTask`, stamp the metadata with the execution id and node id,
persist the per-node result (a failing write throws, which ends the
loop with `failed` set, matching the try/catch of the source), record
the result, and enqueue the next nodes selected by the outcome. -/
def runLoop (handlers : HandlerRegistry) (env : Env) (nodes : List Node)
    (edges : List Edge) : Nat → LoopState → LoopState
  | 0, s => s
  | fuel + 1, s =>
    match s.queue with
    | [] => s
    | item :: rest =>
      if item.dependencies.all (fun depId => s.executed.contains depId) then
        let er := executeTask handlers env item.node s.results
        let result :=
          { er.1 with metadata :=
              { er.1.metadata with
                executionId := env.executionId, nodeId := item.node.id } }
        if env.storeOk item.node.id then
          let condition := if result.success then "success" else "error"
          let nextNodes := findNextNodes item.node.id edges nodes condition
          let eq3 := enqueueNextNodes item.node.id nextNodes rest s.enqueued s.enqueueLog
          runLoop handlers env nodes edges fuel
            { s with
              queue := eq3.1,
              enqueued := eq3.2.1,
              enqueueLog := eq3.2.2,
              executed := s.executed ++ [item.node.id],
              results := setResult s.results item.node.id result,
              invoked := s.invoked ++ [item.node.id],
              docs := s.docs ++ [DocEvent.nodeResult item.node.id result.success],
              toasts := s.toasts ++ er.2 }
        else
          { s with
            invoked := s.invoked ++ [item.node.id],
            toasts := s.toasts ++ er.2,
            failed := some "Error storing workflow result" }
      else
        runLoop handlers env nodes edges fuel
          { s with queue := rest ++ [item], requeues := s.requeues + 1 }

/-- What `executeWorkflow` returns and observably does: the in-memory
results map plus the observation trace.  `queueLeft` is the length of
the scheduling queue when the loop stopped (zero when it drained). -/
structure ExecOut where
  results : ResultsMap
  toasts : List String
  docs : List DocEvent
  invoked : List String
  enqueueLog : List String
  requeues : Nat
  queueLeft : Nat
  failed : Option String
deriving Repr

/-- `executeWorkflow`.  No start node or no user id: toast and return
the empty map with no persistence write at all.  Otherwise create the
run record, run the scheduling loop (fuel `nodes.length + 1`, proved
sufficient below), and finalize the run record: on normal completion
with status completed or completed-with-errors, and after a thrown
persistence error with status failed (the catch block). -/
def executeWorkflow (handlers : HandlerRegistry) (env : Env) (nodes : List Node)
    (edges : List Edge) (options : ExecOptions) : ExecOut :=
  match findStartNode nodes edges with
  | none =>
    { results := [], toasts := ["No starting node found in the workflow"],
      docs := [], invoked := [], enqueueLog := [], requeues := 0,
      queueLeft := 0, failed := none }
  | some startNode =>
    match options.userId with
    | none =>
      { results := [], toasts := ["User must be logged in to execute workflows"],
        docs := [], invoked := [], enqueueLog := [], requeues := 0,
        queueLeft := 0, failed := none }
    | some _ =>
      let s0 : LoopState :=
        { queue := [{ node := startNode, dependencies := [] }],
          enqueued := [startNode.id],
          executed := [],
          results := [],
          invoked := [],
          enqueueLog := [startNode.id],
          requeues := 0,
          docs := [DocEvent.runCreated env.executionId],
          toasts := [],
          failed := none }
      let sF := runLoop handlers env nodes edges (nodes.length + 1) s0
      match sF.failed with
      | none =>
        let errorCount := (sF.results.filter (fun p => !p.2.success)).length
        { results := sF.results,
          toasts := sF.toasts,
          docs := sF.docs ++
            [DocEvent.runUpdated
              (if errorCount = 0 then "completed" else "completed_with_errors")
              (if errorCount = 0 then "" else "Some nodes failed to execute")],
          invoked := sF.invoked,
          enqueueLog := sF.enqueueLog,
          requeues := sF.requeues,
          queueLeft := sF.queue.length,
          failed := none }
      | some msg =>
        { results := sF.results,
          toasts := sF.toasts ++ ["Workflow execution failed"],
          docs := sF.docs ++ [DocEvent.runUpdated "failed" msg],
          invoked := sF.invoked,
          enqueueLog := sF.enqueueLog,
          requeues := sF.requeues,
          queueLeft := sF.queue.length,
          failed := some msg }

/-- Token view of a prompt: literal stretches and placeholders.  Used
to state what the template substitution does: `renderPromptToks`
prints the token list back to the raw prompt, and the theorem for the
substitution claim compares the scan of the printed prompt with the
per-token substitution `claimSubstTok`. -/
inductive PromptTok where
  | lit (s : List Char)
  | ph (w : List Char)
deriving DecidableEq, Repr

/-- Print one token: a placeholder prints as two opening braces, the
word, two closing braces. -/
def renderPromptTok : PromptTok → List Char
  | .lit s => s
  | .ph w => '{' :: '{' :: (w ++ ['}', '}'])

/-- Print a token list back to a raw prompt. -/
def renderPromptToks (ts : List PromptTok) : List Char :=
  (ts.map renderPromptTok).flatten

/-- Per-token substitution as the claim words it: a placeholder whose
id has a previous result with output text is replaced by that text;
any other placeholder stays verbatim; literals stay as they are. -/
def claimSubstTok (m : ResultsMap) : PromptTok → List Char
  | .lit s => s
  | .ph w =>
    match lookupResult m (String.mk w) with
    | some r =>
      match r.data with
      | some d => d.text.data
      | none => renderPromptTok (.ph w)
    | none => renderPromptTok (.ph w)

/-- Well-formed tokens for the substitution statement: literal
stretches free of opening braces, placeholder words non-empty and made
of word characters. -/
def WFPromptTok : PromptTok → Prop
  | .lit s => '{' ∉ s
  | .ph w => w ≠ [] ∧ ∀ c ∈ w, isWordChar c = true

/-- The context-prepend rule exactly as the claim words it
(prepend the text of all previous results that are marked successful,
other than the node itself), to be compared with the rule the code
implements.  The block label and separator are those of the code. -/
def claimContextPrompt (node : Node) (previousResults : ResultsMap) : Option String :=
  match (nodeParams node).prompt with
  | some p =>
    if p = "" then none
    else
      let p1 := processPromptTemplate p previousResults
      let entries := previousResults.filter (fun e => !(e.1 = node.id) && e.2.success)
      if entries.length > 0 then
        some (String.intercalate "\n\n" (entries.map contextBlock) ++
          "\n\nBased on the above context:\n" ++ p1)
      else some p1
  | none => none

/-- The entries the amended context claim selects: previous results
other than the node itself whose data carries non-empty text
(membership-based, the form the amended claim takes for maps with
unique keys). -/
def amendedEntries (node : Node) (previousResults : ResultsMap) : ResultsMap :=
  previousResults.filter
    (fun e => !(e.1 = node.id) &&
      (match e.2.data with
       | some d => !(d.text = "")
       | none => false))

/-- The effective prompt as the amended context claim words it: blocks
for every amended entry, joined by blank lines, then the separator
line, then the substituted prompt; just the substituted prompt when
no entry qualifies. -/
def amendedContextPrompt (node : Node) (previousResults : ResultsMap) (p : String) : String :=
  let p1 := processPromptTemplate p previousResults
  let entries := amendedEntries node previousResults
  if entries.length > 0 then
    String.intercalate "\n\n"
        (entries.map (fun e =>
          "Previous result:\n" ++
            (match e.2.data with
             | some d => d.text
             | none => ""))) ++
      "\n\nBased on the above context:\n" ++ p1
  else p1

/-- The node id carried by a queue item. -/
def itemId (it : QueueItem) : String := it.node.id

/-- How many distinct node ids of the graph are not yet enqueued. -/
def remainingIds (nodes : List Node) (enqueued : List String) : Nat :=
  ((nodes.map Node.id).toFinset \ enqueued.toFinset).card

/-- Decreasing measure of the scheduling loop: queued items plus
distinct node ids not yet enqueued. -/
def loopPotential (nodes : List Node) (s : LoopState) : Nat :=
  s.queue.length + remainingIds nodes s.enqueued

/-- Invariant of the scheduling loop, established by the initial state
of `executeWorkflow` and preserved by every iteration: dependencies of
queued items are already executed (so the requeue branch is dead); the
ids in the queue and the dispatch log are pairwise distinct and all
recorded as enqueued; the executed set, the result keys and the
dispatch log coincide; the enqueue log is the enqueued set and is
duplicate-free; results were only recorded for nodes whose persistence
write succeeds; no error is pending. -/
structure LoopInv (env : Env) (s : LoopState) : Prop where
  deps_executed : ∀ it ∈ s.queue, ∀ d ∈ it.dependencies, d ∈ s.executed
  ids_nodup : (s.queue.map itemId ++ s.invoked).Nodup
  queue_enqueued : ∀ it ∈ s.queue, itemId it ∈ s.enqueued
  invoked_enqueued : ∀ i ∈ s.invoked, i ∈ s.enqueued
  executed_eq : s.executed = s.invoked
  result_keys : s.results.map Prod.fst = s.invoked
  log_eq : s.enqueueLog = s.enqueued
  log_nodup : s.enqueued.Nodup
  results_stored : ∀ p ∈ s.results, env.storeOk p.1 = true
  not_failed : s.failed = none

theorem lookupResult_of_nodup {m : ResultsMap} (h : (m.map Prod.fst).Nodup) :
    ∀ e ∈ m, lookupResult m e.1 = some e.2 := by
  induction m with
  | nil => intro e he; cases he
  | cons hd tl ih =>
    intro e he
    rcases List.mem_cons.mp he with rfl | he2
    · simp [lookupResult]
    · have hne : ¬ hd.1 = e.1 := by
        intro hEq
        have : e.1 ∈ tl.map Prod.fst := List.mem_map_of_mem Prod.fst he2
        rw [List.map_cons] at h
        exact (List.nodup_cons.mp h).1 (hEq ▸ this)
      have htl : (tl.map Prod.fst).Nodup := by
        rw [List.map_cons] at h; exact (List.nodup_cons.mp h).2
      have := ih htl e he2
      simpa [lookupResult, List.find?, hne] using this

theorem setResult_mem {m : ResultsMap} {k : String} {v : TaskResult} :
    ∀ p ∈ setResult m k v, p = (k, v) ∨ p ∈ m := by
  intro p hp
  unfold setResult at hp
  by_cases hfind : (m.find? (fun q => q.1 = k)).isSome
  · rw [if_pos hfind] at hp
    rcases List.mem_map.mp hp with ⟨q, hq, hEq⟩
    by_cases hk : q.1 = k
    · left; rw [← hEq]; simp [hk]
    · right; rw [← hEq]; simpa [hk] using hq
  · rw [if_neg hfind] at hp
    rcases List.mem_append.mp hp with h | h
    · right; exact h
    · left; simpa using h

/-- Claim C2: for edges whose condition is unset or one of the three
known values, and either outcome, the edge-traversability test accepts
exactly when the condition is `always` (which an unset condition
defaults to) or equal to the outcome. -/
theorem c2_isTraversable_iff (e : Edge) (outcome : String)
    (ho : outcome = "success" ∨ outcome = "error")
    (hc : edgeRawCondition e = none ∨ edgeRawCondition e = some "always" ∨
          edgeRawCondition e = some "success" ∨ edgeRawCondition e = some "error") :
    isTraversable e outcome = true ↔
      (edgeRawCondition e = none ∨ edgeRawCondition e = some "always" ∨
        edgeRawCondition e = some outcome) := by
  rcases ho with rfl | rfl <;>
    rcases hc with h | h | h | h <;>
    simp [isTraversable, h] <;> decide

theorem c2_isTraversable_iff_witness :
    ((("success" : String) = "success" ∨ ("success" : String) = "error") ∧
      (edgeRawCondition { source := "a", target := "b" } = none ∨
        edgeRawCondition { source := "a", target := "b" } = some "always" ∨
        edgeRawCondition { source := "a", target := "b" } = some "success" ∨
        edgeRawCondition { source := "a", target := "b" } = some "error")) ∧
    (isTraversable { source := "a", target := "b" } "success" = true ↔
      (edgeRawCondition { source := "a", target := "b" } = none ∨
        edgeRawCondition { source := "a", target := "b" } = some "always" ∨
        edgeRawCondition { source := "a", target := "b" } = some "success")) :=
  ⟨⟨Or.inl rfl, by decide⟩,
    c2_isTraversable_iff { source := "a", target := "b" } "success"
      (Or.inl rfl) (by decide)⟩

/-- Claim C8, counterexample: an edge carrying the unknown condition
string `foo` is traversable for neither outcome, while the claim says
such an edge is treated as `always` and traversable for both. -/
theorem c8_counterexample :
    isTraversable
        { id := "e", source := "a", target := "b",
          data := some { condition := some "foo" } } "success" = false ∧
      isTraversable
        { id := "e", source := "a", target := "b",
          data := some { condition := some "foo" } } "error" = false := by
  decide

/-- Claim C8 as amended: only an unset or empty condition defaults to
`always`; an edge whose condition is any other string than `always`
and the outcome is not traversable for that outcome. -/
theorem c8_amended (e : Edge) (outcome : String)
    (ho : outcome = "success" ∨ outcome = "error") :
    ((∃ s, edgeRawCondition e = some s ∧ s ≠ "" ∧ s ≠ "always" ∧ s ≠ outcome) →
        isTraversable e outcome = false) ∧
      ((edgeRawCondition e = none ∨ edgeRawCondition e = some "") →
        isTraversable e outcome = true) := by
  constructor
  · rintro ⟨s, hs, h0, h1, h2⟩
    simp [isTraversable, hs, h0, h1, h2]
  · rintro (h | h) <;> simp [isTraversable, h]

theorem c8_amended_witness :
    isTraversable
        { id := "e", source := "a", target := "b",
          data := some { condition := some "foo" } } "success" = false :=
  (c8_amended
      { id := "e", source := "a", target := "b",
        data := some { condition := some "foo" } } "success" (Or.inl rfl)).1
    ⟨"foo", rfl, by decide, by decide, by decide⟩

theorem findStartNode_eq_none {nodes : List Node} {edges : List Edge}
    (h : ∀ n ∈ nodes, ∃ e ∈ edges, e.target = n.id) :
    findStartNode nodes edges = none := by
  unfold findStartNode
  apply List.head?_eq_none_iff.mpr
  apply List.filter_eq_nil_iff.mpr
  intro n hn
  rcases h n hn with ⟨e, he, ht⟩
  have hmem : n.id ∈ edges.map (fun e => e.target) := List.mem_map.mpr ⟨e, he, ht⟩
  simp [List.elem_iff, hmem]

/-- Claim C7 as amended: on a graph where every node has an incoming
edge there is no start node, and `executeWorkflow` returns the empty
results map having executed nothing, written nothing to the record
store (in particular no failed run record), and reported the error
through the toast `No starting node found in the workflow`. -/
theorem c7_amended (handlers : HandlerRegistry) (env : Env) (nodes : List Node)
    (edges : List Edge) (options : ExecOptions)
    (h : ∀ n ∈ nodes, ∃ e ∈ edges, e.target = n.id) :
    executeWorkflow handlers env nodes edges options =
      { results := [], toasts := ["No starting node found in the workflow"],
        docs := [], invoked := [], enqueueLog := [], requeues := 0,
        queueLeft := 0, failed := none } := by
  unfold executeWorkflow
  rw [findStartNode_eq_none h]

theorem c7_amended_witness :
    executeWorkflow (fun _ => none) {} [{ id := "a" }]
        [{ id := "l", source := "a", target := "a" }] { userId := some "u" } =
      { results := [], toasts := ["No starting node found in the workflow"],
        docs := [], invoked := [], enqueueLog := [], requeues := 0,
        queueLeft := 0, failed := none } :=
  c7_amended (fun _ => none) {} [{ id := "a" }]
    [{ id := "l", source := "a", target := "a" }] { userId := some "u" }
    (by decide)

/-- Claim C7, counterexample: on the one-node self-loop graph (no
start node), `executeWorkflow` writes no record at all to the store —
in particular it does not record the run as failed with the error
`No starting node found`, as the claim states. -/
theorem c7_counterexample :
    (executeWorkflow (fun _ => none) {} [{ id := "a" }]
        [{ id := "l", source := "a", target := "a" }]
        { userId := some "u" }).docs = [] ∧
      DocEvent.runUpdated "failed" "No starting node found" ∉
        (executeWorkflow (fun _ => none) {} [{ id := "a" }]
          [{ id := "l", source := "a", target := "a" }]
          { userId := some "u" }).docs := by
  decide

theorem runLoop_results_stored (handlers : HandlerRegistry) (env : Env)
    (nodes : List Node) (edges : List Edge) :
    ∀ fuel s, (∀ p ∈ s.results, env.storeOk p.1 = true) →
      ∀ p ∈ (runLoop handlers env nodes edges fuel s).results, env.storeOk p.1 = true := by
  intro fuel
  induction fuel with
  | zero => intro s hs; simpa [runLoop] using hs
  | succ f ih =>
    intro s hs p hp
    rw [runLoop] at hp
    split at hp
    · exact hs p hp
    · split at hp
      · split at hp
        · rename_i item rest hdep hst
          refine ih _ ?_ p hp
          intro q hq2
          rcases setResult_mem q hq2 with rfl | hq3
          · exact hst
          · exact hs q hq3
        · exact hs p hp
      · refine ih _ ?_ p hp
        exact hs

/-- Claim C9 as amended: a failing per-node persistence write aborts
the run instead of being skipped — the engine never records, in the
returned in-memory results map, a node whose write failed (neither the
failing node nor anything scheduled after it), so every key of the
returned map is a node id whose write succeeded. -/
theorem c9_amended (handlers : HandlerRegistry) (env : Env) (nodes : List Node)
    (edges : List Edge) (options : ExecOptions) :
    ∀ k ∈ (executeWorkflow handlers env nodes edges options).results.map Prod.fst,
      env.storeOk k = true := by
  intro k hk
  unfold executeWorkflow at hk
  rcases hstart : findStartNode nodes edges with _ | startNode
  · rw [hstart] at hk; simp at hk
  · rw [hstart] at hk
    rcases huser : options.userId with _ | uid
    · rw [huser] at hk; simp at hk
    · rw [huser] at hk
      rcases List.mem_map.mp
        (by
          rcases hfail : (runLoop handlers env nodes edges (nodes.length + 1)
              { queue := [{ node := startNode, dependencies := [] }],
                enqueued := [startNode.id], executed := [], results := [],
                invoked := [], enqueueLog := [startNode.id], requeues := 0,
                docs := [DocEvent.runCreated env.executionId], toasts := [],
                failed := none }).failed with _ | msg <;>
            simp only [hfail] at hk <;> exact hk)
        with ⟨p, hp, hpk⟩
      subst hpk
      exact runLoop_results_stored handlers env nodes edges _ _ (by intro q hq; cases hq) p hp

theorem c9_amended_witness :
    Env.storeOk {} "n1" = true :=
  c9_amended (fun _ => some (fun cfg _ =>
      { success := true, data := some { text := "t" },
        metadata := { nodeId := cfg.nodeId, executionId := "", timestamp := "" } }))
    {} [{ id := "n1" }, { id := "n2" }]
    [{ id := "e", source := "n1", target := "n2" }] { userId := some "u" }
    "n1" (by decide)

/-- Claim C9, counterexample: same two-node chain, same always-succeeding
handler; when the persistence write for `n1` fails the engine aborts —
the returned results map is empty and `n2` is never dispatched — while
with persistence succeeding both nodes execute, so the in-memory map
does not contain the results the claim promises. -/
theorem c9_counterexample :
    (executeWorkflow
        (fun _ => some (fun cfg _ =>
          { success := true, data := some { text := "t" },
            metadata := { nodeId := cfg.nodeId, executionId := "", timestamp := "" } }))
        { storeOk := fun i => !(i = "n1") }
        [{ id := "n1" }, { id := "n2" }]
        [{ id := "e", source := "n1", target := "n2" }]
        { userId := some "u" }).results = [] ∧
      (executeWorkflow
        (fun _ => some (fun cfg _ =>
          { success := true, data := some { text := "t" },
            metadata := { nodeId := cfg.nodeId, executionId := "", timestamp := "" } }))
        { storeOk := fun i => !(i = "n1") }
        [{ id := "n1" }, { id := "n2" }]
        [{ id := "e", source := "n1", target := "n2" }]
        { userId := some "u" }).invoked = ["n1"] ∧
      (executeWorkflow
        (fun _ => some (fun cfg _ =>
          { success := true, data := some { text := "t" },
            metadata := { nodeId := cfg.nodeId, executionId := "", timestamp := "" } }))
        {}
        [{ id := "n1" }, { id := "n2" }]
        [{ id := "e", source := "n1", target := "n2" }]
        { userId := some "u" }).results.map Prod.fst = ["n1", "n2"] := by
  refine ⟨?_, ?_, ?_⟩ <;> rfl

/-- Claim C6: a node whose type has no registered handler makes
`executeTask` return (not throw) the failed result with error
`No handler for task type: <type>` and metadata carrying the node id
and the current timestamp; and (concrete run, an unregistered type on
`n1` with an error edge to `n2`) the run continues past such a node,
executing the downstream node. -/
theorem c6_missing_handler (handlers : HandlerRegistry) (env : Env) (node : Node)
    (previousResults : ResultsMap) (h : handlers (nodeType node) = none) :
    executeTask handlers env node previousResults =
      ({ success := false,
         error := some ("No handler for task type: " ++ nodeType node),
         metadata := { nodeId := node.id, executionId := "", timestamp := env.now } },
        []) ∧
      (executeWorkflow (fun _ => none) {} [{ id := "n1" }, { id := "n2" }]
          [{ id := "e", source := "n1", target := "n2",
             data := some { condition := some "error" } }]
          { userId := some "u" }).results.map Prod.fst = ["n1", "n2"] := by
  constructor
  · simp only [executeTask, h]
  · rfl

theorem c6_missing_handler_witness :
    executeTask (fun _ => none) {} { id := "w" } [] =
      ({ success := false,
         error := some ("No handler for task type: " ++ nodeType { id := "w" }),
         metadata := { nodeId := "w", executionId := "",
                       timestamp := Env.now {} } },
        []) :=
  (c6_missing_handler (fun _ => none) {} { id := "w" } [] rfl).1

/-- Claim C5, counterexample: the code keeps as context every previous
result with non-empty output text regardless of its success flag, and
skips the prepend entirely for a node with a truthy target handle; the
claim (context is the text of all successful previous results,
for every node) predicts a different effective prompt in both cases. -/
theorem c5_counterexample :
    effectivePrompt
        { id := "B", data := some { parameters := some { prompt := some "p" } } }
        [("A", { success := false, data := some { text := "X" },
                 error := some "boom",
                 metadata := { nodeId := "A", executionId := "", timestamp := "t" } })] =
      some "Previous result:\nX\n\nBased on the above context:\np" ∧
    claimContextPrompt
        { id := "B", data := some { parameters := some { prompt := some "p" } } }
        [("A", { success := false, data := some { text := "X" },
                 error := some "boom",
                 metadata := { nodeId := "A", executionId := "", timestamp := "t" } })] =
      some "p" ∧
    effectivePrompt
        { id := "B", data := some { parameters := some { prompt := some "p" },
                                    targetHandle := true } }
        [("A", { success := true, data := some { text := "X" },
                 metadata := { nodeId := "A", executionId := "", timestamp := "t" } })] =
      some "p" ∧
    claimContextPrompt
        { id := "B", data := some { parameters := some { prompt := some "p" },
                                    targetHandle := true } }
        [("A", { success := true, data := some { text := "X" },
                 metadata := { nodeId := "A", executionId := "", timestamp := "t" } })] =
      some "Previous result:\nX\n\nBased on the above context:\np" ∧
    effectivePrompt
        { id := "B", data := some { parameters := some { prompt := some "p" } } }
        [("A", { success := false, data := some { text := "X" },
                 error := some "boom",
                 metadata := { nodeId := "A", executionId := "", timestamp := "t" } })] ≠
      claimContextPrompt
        { id := "B", data := some { parameters := some { prompt := some "p" } } }
        [("A", { success := false, data := some { text := "X" },
                 error := some "boom",
                 metadata := { nodeId := "A", executionId := "", timestamp := "t" } })] := by
  refine ⟨rfl, rfl, rfl, rfl, ?_⟩
  decide

/-- Claim C5 as amended: for a node without a truthy target handle and
with a non-empty prompt, over a results map with unique keys, the
effective prompt is exactly the amended build — blocks for every
previous result with non-empty output text other than the node itself
(regardless of the success flag), in map order, joined by blank lines,
then the separator line, then the substituted prompt; and just the
substituted prompt when no entry qualifies. -/
theorem c5_amended (node : Node) (previousResults : ResultsMap) (p : String)
    (hnodup : (previousResults.map Prod.fst).Nodup)
    (hth : nodeTargetHandle node = false)
    (hp : (nodeParams node).prompt = some p) (hne : p ≠ "") :
    effectivePrompt node previousResults =
      some (amendedContextPrompt node previousResults p) := by
  have hentries : contextEntries node previousResults =
      amendedEntries node previousResults := by
    unfold contextEntries amendedEntries
    rw [if_neg (by simp [hth])]
    apply List.filter_congr
    intro e he
    have hl := lookupResult_of_nodup hnodup e he
    simp [resultTextTruthy, hl, eq_comm]
  have hblocks : (amendedEntries node previousResults).map contextBlock =
      (amendedEntries node previousResults).map
        (fun e => "Previous result:\n" ++
          (match e.2.data with
           | some d => d.text
           | none => "")) := by
    apply List.map_congr_left
    intro e he
    rcases List.mem_filter.mp he with ⟨_, hpred⟩
    rcases hdata : e.2.data with _ | d
    · rw [hdata] at hpred; simp at hpred
    · simp [contextBlock, hdata]
  simp only [effectivePrompt, buildTaskParams, hp]
  rw [if_neg hne, hentries]
  unfold amendedContextPrompt
  by_cases hlen : (amendedEntries node previousResults).length > 0
  · rw [if_pos hlen, if_pos hlen, hblocks]
  · rw [if_neg hlen, if_neg hlen]

theorem c5_amended_witness :
    effectivePrompt
        { id := "B", data := some { parameters := some { prompt := some "Use \x7b\x7bA\x7d\x7d" } } }
        [("A", { success := true, data := some { text := "X" },
                 metadata := { nodeId := "A", executionId := "", timestamp := "t" } })] =
      some (amendedContextPrompt
        { id := "B", data := some { parameters := some { prompt := some "Use \x7b\x7bA\x7d\x7d" } } }
        [("A", { success := true, data := some { text := "X" },
                 metadata := { nodeId := "A", executionId := "", timestamp := "t" } })]
        "Use \x7b\x7bA\x7d\x7d") :=
  c5_amended
    { id := "B", data := some { parameters := some { prompt := some "Use \x7b\x7bA\x7d\x7d" } } }
    [("A", { success := true, data := some { text := "X" },
             metadata := { nodeId := "A", executionId := "", timestamp := "t" } })]
    "Use \x7b\x7bA\x7d\x7d" (by decide) rfl rfl (by decide)

theorem scanTemplate_nil (m : ResultsMap) (fuel : Nat) :
    scanTemplate m fuel [] = [] := by
  cases fuel <;> rfl

theorem takeWhile_word_append {w t : List Char} {b : Char}
    (hw : ∀ c ∈ w, isWordChar c = true) (hb : isWordChar b = false) :
    (w ++ b :: t).takeWhile isWordChar = w ∧
      (w ++ b :: t).dropWhile isWordChar = b :: t := by
  induction w with
  | nil => simp [List.takeWhile, List.dropWhile, hb]
  | cons c w2 ih =>
    have hc : isWordChar c = true := hw c (List.mem_cons_self c w2)
    have hw2 : ∀ x ∈ w2, isWordChar x = true :=
      fun x hx => hw x (List.mem_cons_of_mem c hx)
    rcases ih hw2 with ⟨h1, h2⟩
    constructor
    · simpa [List.takeWhile, hc] using h1
    · simpa [List.dropWhile, hc] using h2

theorem scanTemplate_lit_step (m : ResultsMap) {c : Char} (hc : ¬ c = '{')
    (fuel : Nat) (l : List Char) :
    scanTemplate m (fuel + 1) (c :: l) = c :: scanTemplate m fuel l := by
  simp [scanTemplate, hc]

theorem scanTemplate_lit_block (m : ResultsMap) :
    ∀ (s : List Char), '{' ∉ s → ∀ (fuel : Nat) (l : List Char),
      scanTemplate m (s.length + fuel) (s ++ l) = s ++ scanTemplate m fuel l := by
  intro s
  induction s with
  | nil => intro _ fuel l; simp
  | cons c s2 ih =>
    intro hs fuel l
    have hc : ¬ c = '{' := fun h => hs (h ▸ List.mem_cons_self c s2)
    have hs2 : '{' ∉ s2 := fun h => hs (List.mem_cons_of_mem c h)
    have harith : (c :: s2).length + fuel = (s2.length + fuel) + 1 := by
      simp [List.length_cons]; omega
    rw [harith, List.cons_append, scanTemplate_lit_step m hc, ih hs2 fuel l,
      List.cons_append]

theorem scanTemplate_ph_step (m : ResultsMap) {w : List Char}
    (hw : ∀ c ∈ w, isWordChar c = true) (hne : w ≠ [])
    (fuel : Nat) (l : List Char) :
    scanTemplate m (fuel + 1) ('{' :: '{' :: (w ++ '}' :: '}' :: l)) =
      templateReplacement m w ++ scanTemplate m fuel l := by
  have hb : isWordChar '}' = false := by decide
  rcases takeWhile_word_append hw hb (t := '}' :: l) with ⟨h1, h2⟩
  cases w with
  | nil => exact absurd rfl hne
  | cons c0 w2 =>
    rw [scanTemplate, if_pos rfl]
    simp only [h1, h2]

theorem templateReplacement_eq_claimSubst (m : ResultsMap) (w : List Char) :
    templateReplacement m w = claimSubstTok m (.ph w) := rfl

theorem scanTemplate_render (m : ResultsMap) :
    ∀ (ts : List PromptTok), (∀ t ∈ ts, WFPromptTok t) → ∀ (fuel : Nat),
      scanTemplate m ((renderPromptToks ts).length + fuel) (renderPromptToks ts) =
        (ts.map (claimSubstTok m)).flatten := by
  intro ts
  induction ts with
  | nil => intro _ fuel; simpa [renderPromptToks] using scanTemplate_nil m fuel
  | cons t ts2 ih =>
    intro h fuel
    have ht : WFPromptTok t := h t (List.mem_cons_self t ts2)
    have hts2 : ∀ x ∈ ts2, WFPromptTok x := fun x hx => h x (List.mem_cons_of_mem t hx)
    have hrender : renderPromptToks (t :: ts2) =
        renderPromptTok t ++ renderPromptToks ts2 := by
      simp [renderPromptToks]
    cases t with
    | lit s =>
      have hlit : '{' ∉ s := ht
      have harith : (renderPromptToks (.lit s :: ts2)).length + fuel =
          s.length + ((renderPromptToks ts2).length + fuel) := by
        rw [hrender]; simp [renderPromptTok]; omega
      rw [harith, hrender]
      show scanTemplate m (s.length + ((renderPromptToks ts2).length + fuel))
          (s ++ renderPromptToks ts2) = _
      rw [scanTemplate_lit_block m s hlit _ _, ih hts2 _]
      simp [claimSubstTok]
    | ph w =>
      rcases ht with ⟨hne, hw⟩
      have hshape : renderPromptToks (.ph w :: ts2) =
          '{' :: '{' :: (w ++ '}' :: '}' :: renderPromptToks ts2) := by
        rw [hrender]; simp [renderPromptTok]
      have harith : (renderPromptToks (.ph w :: ts2)).length + fuel =
          (w.length + 3 + ((renderPromptToks ts2).length + fuel)) + 1 := by
        rw [hshape]; simp; omega
      rw [harith, hshape,
        scanTemplate_ph_step m hw hne
          (w.length + 3 + ((renderPromptToks ts2).length + fuel)) _]
      have hfuel2 : scanTemplate m
          (w.length + 3 + ((renderPromptToks ts2).length + fuel))
          (renderPromptToks ts2) = (ts2.map (claimSubstTok m)).flatten := by
        have : w.length + 3 + ((renderPromptToks ts2).length + fuel) =
            (renderPromptToks ts2).length + (w.length + 3 + fuel) := by omega
        rw [this, ih hts2 _]
      rw [hfuel2, templateReplacement_eq_claimSubst]
      simp

/-- Claim C4: template processing is per-placeholder substitution — on
any prompt that prints from a well-formed token list, the processed
prompt is the token list printed with each placeholder whose id has a
previous result carrying output text replaced by that text and every
other placeholder (missing reference, or reference without data) left
verbatim, with no exception possible (the function is total); in
particular, when node A succeeded with text `X`, the prompt
`Use \x7b\x7bA\x7d\x7d` becomes `Use X`, and with no result for A it
stays verbatim. -/
theorem c4_template_substitution (m : ResultsMap) (ts : List PromptTok)
    (h : ∀ t ∈ ts, WFPromptTok t) :
    processPromptTemplate (String.mk (renderPromptToks ts)) m =
        String.mk ((ts.map (claimSubstTok m)).flatten) ∧
      processPromptTemplate "Use \x7b\x7bA\x7d\x7d"
        [("A", { success := true, data := some { text := "X" },
                 metadata := { nodeId := "A", executionId := "", timestamp := "t" } })] =
        "Use X" ∧
      processPromptTemplate "Use \x7b\x7bA\x7d\x7d" [] = "Use \x7b\x7bA\x7d\x7d" := by
  refine ⟨?_, rfl, rfl⟩
  unfold processPromptTemplate
  have : (String.mk (renderPromptToks ts)).data = renderPromptToks ts := rfl
  rw [this]
  have := scanTemplate_render m ts h 0
  rw [Nat.add_zero] at this
  rw [this]

theorem c4_template_substitution_witness :
    processPromptTemplate
        (String.mk (renderPromptToks [.lit ['U', 's', 'e', ' '], .ph ['A']]))
        [("A", { success := true, data := some { text := "X" },
                 metadata := { nodeId := "A", executionId := "", timestamp := "t" } })] =
      String.mk
        (([PromptTok.lit ['U', 's', 'e', ' '], PromptTok.ph ['A']].map
          (claimSubstTok
            [("A", { success := true, data := some { text := "X" },
                     metadata := { nodeId := "A", executionId := "", timestamp := "t" } })])).flatten) :=
  (c4_template_substitution
    [("A", { success := true, data := some { text := "X" },
             metadata := { nodeId := "A", executionId := "", timestamp := "t" } })]
    [.lit ['U', 's', 'e', ' '], .ph ['A']]
    (by
      intro t ht
      rcases List.mem_cons.mp ht with rfl | ht2
      · show '{' ∉ ['U', 's', 'e', ' ']
        decide
      · rcases List.mem_cons.mp ht2 with rfl | h3
        · exact ⟨by decide, by decide⟩
        · cases h3)).1

theorem setResult_of_notMem {m : ResultsMap} {k : String} {v : TaskResult}
    (h : k ∉ m.map Prod.fst) : setResult m k v = m ++ [(k, v)] := by
  unfold setResult
  rw [if_neg]
  simp only [Option.isSome_iff_exists, not_exists]
  intro p hp
  rcases List.find?_some hp with heq
  exact absurd (List.mem_map_of_mem Prod.fst (List.mem_of_find?_eq_some hp))
    (by simpa [of_decide_eq_true heq] using h)

theorem findNextNodes_subset (nodeId : String) (edges : List Edge)
    (nodes : List Node) (condition : String) :
    ∀ nx ∈ findNextNodes nodeId edges nodes condition, nx.id ∈ nodes.map Node.id := by
  intro nx hnx
  unfold findNextNodes at hnx
  exact List.mem_map_of_mem Node.id (List.mem_of_mem_filter hnx)

theorem remainingIds_push (nodes : List Node) {enq : List String} {a : String}
    (ha : a ∈ nodes.map Node.id) (hna : a ∉ enq) :
    remainingIds nodes (enq ++ [a]) + 1 = remainingIds nodes enq := by
  unfold remainingIds
  have hset : (enq ++ [a]).toFinset = insert a enq.toFinset := by
    ext x
    simp [List.mem_toFinset, or_comm]
  rw [hset]
  have hsd : (nodes.map Node.id).toFinset \ insert a enq.toFinset =
      ((nodes.map Node.id).toFinset \ enq.toFinset).erase a := by
    ext x
    simp only [Finset.mem_sdiff, Finset.mem_insert, Finset.mem_erase]
    tauto
  rw [hsd]
  have hmem : a ∈ (nodes.map Node.id).toFinset \ enq.toFinset := by
    rw [Finset.mem_sdiff]
    exact ⟨List.mem_toFinset.mpr ha, fun hc => hna (List.mem_toFinset.mp hc)⟩
  rw [Finset.card_erase_of_mem hmem]
  have hpos : 0 < ((nodes.map Node.id).toFinset \ enq.toFinset).card :=
    Finset.card_pos.mpr ⟨a, hmem⟩
  omega

theorem remainingIds_le (nodes : List Node) (enq : List String) :
    remainingIds nodes enq ≤ nodes.length := by
  unfold remainingIds
  calc ((nodes.map Node.id).toFinset \ enq.toFinset).card
      ≤ (nodes.map Node.id).toFinset.card :=
        Finset.card_le_card (Finset.sdiff_subset)
    _ ≤ (nodes.map Node.id).length := List.toFinset_card_le _
    _ = nodes.length := List.length_map _ _

theorem enqueueNextNodes_spec (nodes : List Node) (curId : String) :
    ∀ (nxs : List Node), (∀ nx ∈ nxs, nx.id ∈ nodes.map Node.id) →
      ∀ (q : List QueueItem) (enq log : List String),
        ∃ new : List QueueItem,
          enqueueNextNodes curId nxs q enq log =
            (q ++ new, enq ++ new.map itemId, log ++ new.map itemId) ∧
          (∀ it ∈ new, it.dependencies = [curId]) ∧
          (new.map itemId).Nodup ∧
          (∀ a ∈ new.map itemId, a ∉ enq ∧ a ∈ nodes.map Node.id) ∧
          (q ++ new).length + remainingIds nodes (enq ++ new.map itemId) =
            q.length + remainingIds nodes enq := by
  intro nxs
  induction nxs with
  | nil =>
    intro _ q enq log
    exact ⟨[], by simp [enqueueNextNodes], by simp, by simp, by simp, by simp⟩
  | cons nx rest ih =>
    intro h q enq log
    have hrest : ∀ x ∈ rest, x.id ∈ nodes.map Node.id :=
      fun x hx => h x (List.mem_cons_of_mem nx hx)
    by_cases hmem : enq.contains nx.id
    · rcases ih hrest q enq log with ⟨new, heq, h1, h2, h3, h4⟩
      refine ⟨new, ?_, h1, h2, h3, h4⟩
      rw [enqueueNextNodes, if_pos hmem, heq]
    · have hnotin : nx.id ∉ enq := fun hc => hmem (List.elem_iff.mpr hc)
      rcases ih hrest (q ++ [{ node := nx, dependencies := [curId] }])
          (enq ++ [nx.id]) (log ++ [nx.id]) with ⟨new2, heq, h1, h2, h3, h4⟩
      refine ⟨{ node := nx, dependencies := [curId] } :: new2, ?_, ?_, ?_, ?_, ?_⟩
      · rw [enqueueNextNodes, if_neg hmem, heq]
        simp [itemId]
      · intro it hit
        rcases List.mem_cons.mp hit with rfl | hit2
        · rfl
        · exact h1 it hit2
      · refine List.nodup_cons.mpr ⟨?_, h2⟩
        intro hc
        exact ((h3 (itemId { node := nx, dependencies := [curId] }) hc).1)
          (List.mem_append_right enq (List.mem_singleton.mpr rfl))
      · intro a ha
        rcases List.mem_cons.mp ha with rfl | ha2
        · exact ⟨hnotin, h nx (List.mem_cons_self nx rest)⟩
        · rcases h3 a ha2 with ⟨hnot, hin⟩
          exact ⟨fun hc => hnot (List.mem_append_left _ hc), hin⟩
      · have hpush := remainingIds_push nodes (h nx (List.mem_cons_self nx rest)) hnotin
        have e1 : q ++ [({ node := nx, dependencies := [curId] } : QueueItem)] ++ new2 =
            q ++ (({ node := nx, dependencies := [curId] } : QueueItem) :: new2) := by simp
        have e2 : enq ++ [nx.id] ++ new2.map itemId =
            enq ++ (({ node := nx, dependencies := [curId] } : QueueItem) :: new2).map itemId := by
          simp [itemId]
        rw [e1, e2] at h4
        have e3 : (q ++ [({ node := nx, dependencies := [curId] } : QueueItem)]).length =
            q.length + 1 := by
          simp
        rw [e3] at h4
        omega

theorem runLoop_spec (handlers : HandlerRegistry) (env : Env) (nodes : List Node)
    (edges : List Edge) :
    ∀ (fuel : Nat) (s : LoopState), LoopInv env s → loopPotential nodes s ≤ fuel →
      ((runLoop handlers env nodes edges fuel s).failed = none →
          (runLoop handlers env nodes edges fuel s).queue = []) ∧
      (runLoop handlers env nodes edges fuel s).requeues = s.requeues ∧
      (runLoop handlers env nodes edges fuel s).invoked.Nodup ∧
      ((runLoop handlers env nodes edges fuel s).results.map Prod.fst).Nodup ∧
      (runLoop handlers env nodes edges fuel s).enqueueLog.Nodup ∧
      ((∀ i, env.storeOk i = true) →
        (runLoop handlers env nodes edges fuel s).failed = none) := by
  intro fuel
  induction fuel with
  | zero =>
    intro s hInv hpot
    have hq : s.queue = [] := by
      have hlen : s.queue.length = 0 := by
        unfold loopPotential at hpot; omega
      exact List.length_eq_zero.mp hlen
    have hrl : runLoop handlers env nodes edges 0 s = s := by rw [runLoop]
    rw [hrl]
    refine ⟨fun _ => hq, rfl, ?_, ?_, ?_, fun _ => hInv.not_failed⟩
    · exact (List.nodup_append.mp hInv.ids_nodup).2.1
    · rw [hInv.result_keys]
      exact (List.nodup_append.mp hInv.ids_nodup).2.1
    · rw [hInv.log_eq]
      exact hInv.log_nodup
  | succ f ih =>
    intro s hInv hpot
    rcases hq : s.queue with _ | ⟨item, rest⟩
    · have hrl : runLoop handlers env nodes edges (f + 1) s = s := by
        rw [runLoop, hq]
      rw [hrl]
      refine ⟨fun _ => hq, rfl, ?_, ?_, ?_, fun _ => hInv.not_failed⟩
      · exact (List.nodup_append.mp hInv.ids_nodup).2.1
      · rw [hInv.result_keys]
        exact (List.nodup_append.mp hInv.ids_nodup).2.1
      · rw [hInv.log_eq]
        exact hInv.log_nodup
    · have hmemq : item ∈ s.queue := by
        rw [hq]; exact List.mem_cons_self item rest
      have hdep : (item.dependencies.all fun depId => s.executed.contains depId) = true := by
        rw [List.all_eq_true]
        intro d hd
        exact List.elem_iff.mpr (hInv.deps_executed item hmemq d hd)
      have hcid_enq : item.node.id ∈ s.enqueued := hInv.queue_enqueued item hmemq
      have hids2 : (itemId item :: (rest.map itemId ++ s.invoked)).Nodup := by
        have h0 := hInv.ids_nodup
        rw [hq] at h0
        simpa using h0
      have hcid_not : itemId item ∉ rest.map itemId ++ s.invoked :=
        (List.nodup_cons.mp hids2).1
      have hrest_nodup : (rest.map itemId ++ s.invoked).Nodup :=
        (List.nodup_cons.mp hids2).2
      have hcid_not_inv : item.node.id ∉ s.invoked := by
        intro hc
        exact hcid_not (List.mem_append_right _ hc)
      have hcid_not_rest : item.node.id ∉ rest.map itemId := by
        intro hc
        exact hcid_not (List.mem_append_left _ hc)
      by_cases hstore : env.storeOk item.node.id = true
      · obtain ⟨new, henq, hdeps_new, hnodup_new, hprops_new, hacct⟩ :=
          enqueueNextNodes_spec nodes item.node.id
            (findNextNodes item.node.id edges nodes
              (if (executeTask handlers env item.node s.results).1.success = true
                then "success" else "error"))
            (findNextNodes_subset item.node.id edges nodes _)
            rest s.enqueued s.enqueueLog
        simp only [runLoop, hq, hdep, hstore, if_true]
        rw [henq]
        dsimp only
        have hInv2 : LoopInv env
            { s with
              queue := rest ++ new,
              enqueued := s.enqueued ++ new.map itemId,
              executed := s.executed ++ [item.node.id],
              results := setResult s.results item.node.id
                { (executeTask handlers env item.node s.results).1 with
                  metadata :=
                    { (executeTask handlers env item.node s.results).1.metadata with
                      executionId := env.executionId, nodeId := item.node.id } },
              invoked := s.invoked ++ [item.node.id],
              enqueueLog := s.enqueueLog ++ new.map itemId,
              requeues := s.requeues,
              docs := s.docs ++ [DocEvent.nodeResult item.node.id
                ({ (executeTask handlers env item.node s.results).1 with
                  metadata :=
                    { (executeTask handlers env item.node s.results).1.metadata with
                      executionId := env.executionId, nodeId := item.node.id } }).success],
              toasts := s.toasts ++ (executeTask handlers env item.node s.results).2,
              failed := s.failed } := by
          constructor
          · intro it hit d hd
            rcases List.mem_append.mp hit with hold | hnew
            · exact List.mem_append_left _
                (hInv.deps_executed it (by rw [hq]; exact List.mem_cons_of_mem item hold) d hd)
            · rw [hdeps_new it hnew] at hd
              rw [List.mem_singleton.mp hd]
              exact List.mem_append_right _ (List.mem_singleton.mpr rfl)
          · simp only [List.map_append]
            have hgoal : ((rest.map itemId ++ new.map itemId) ++
                (s.invoked ++ [item.node.id])).Nodup := by
              have hr : (rest.map itemId).Nodup :=
                (List.nodup_append.mp hrest_nodup).1
              have hi : s.invoked.Nodup :=
                (List.nodup_append.mp hrest_nodup).2.1
              have hdisj_ri : (rest.map itemId).Disjoint s.invoked :=
                (List.nodup_append.mp hrest_nodup).2.2
              rw [List.nodup_append]
              refine ⟨?_, ?_, ?_⟩
              · rw [List.nodup_append]
                refine ⟨hr, hnodup_new, ?_⟩
                intro a ha hb
                rcases List.mem_map.mp ha with ⟨it, hit, rfl⟩
                exact (hprops_new _ hb) |>.1 (hInv.queue_enqueued it
                  (by rw [hq]; exact List.mem_cons_of_mem item hit))
              · rw [List.nodup_append]
                refine ⟨hi, List.nodup_singleton _, ?_⟩
                intro a ha hb
                rw [List.mem_singleton.mp hb] at ha
                exact hcid_not_inv ha
              · intro a ha hb
                rcases List.mem_append.mp ha with h1 | h1
                · rcases List.mem_append.mp hb with h2 | h2
                  · exact hdisj_ri h1 h2
                  · rw [List.mem_singleton.mp h2] at h1
                    exact hcid_not_rest h1
                · rcases List.mem_append.mp hb with h2 | h2
                  · exact (hprops_new a h1).1 (hInv.invoked_enqueued a h2)
                  · rw [List.mem_singleton.mp h2] at h1
                    exact (hprops_new _ h1).1 hcid_enq
            simpa using hgoal
          · intro it hit
            rcases List.mem_append.mp hit with hold | hnew
            · exact List.mem_append_left _
                (hInv.queue_enqueued it (by rw [hq]; exact List.mem_cons_of_mem item hold))
            · exact List.mem_append_right _ (List.mem_map_of_mem itemId hnew)
          · intro i hi
            rcases List.mem_append.mp hi with hold | hnew
            · exact List.mem_append_left _ (hInv.invoked_enqueued i hold)
            · rw [List.mem_singleton.mp hnew]
              exact List.mem_append_left _ hcid_enq
          · rw [hInv.executed_eq]
          · have hkeys : item.node.id ∉ s.results.map Prod.fst := by
              rw [hInv.result_keys]; exact hcid_not_inv
            rw [setResult_of_notMem hkeys]
            simp [hInv.result_keys]
          · rw [hInv.log_eq]
          · rw [List.nodup_append]
            refine ⟨hInv.log_nodup, hnodup_new, ?_⟩
            intro a ha hb
            exact (hprops_new a hb).1 ha
          · intro p hp
            rcases setResult_mem p hp with rfl | hold
            · exact hstore
            · exact hInv.results_stored p hold
          · exact hInv.not_failed
        have hpot2 : loopPotential nodes
            { s with
              queue := rest ++ new,
              enqueued := s.enqueued ++ new.map itemId,
              executed := s.executed ++ [item.node.id],
              results := setResult s.results item.node.id
                { (executeTask handlers env item.node s.results).1 with
                  metadata :=
                    { (executeTask handlers env item.node s.results).1.metadata with
                      executionId := env.executionId, nodeId := item.node.id } },
              invoked := s.invoked ++ [item.node.id],
              enqueueLog := s.enqueueLog ++ new.map itemId,
              requeues := s.requeues,
              docs := s.docs ++ [DocEvent.nodeResult item.node.id
                ({ (executeTask handlers env item.node s.results).1 with
                  metadata :=
                    { (executeTask handlers env item.node s.results).1.metadata with
                      executionId := env.executionId, nodeId := item.node.id } }).success],
              toasts := s.toasts ++ (executeTask handlers env item.node s.results).2,
              failed := s.failed } ≤ f := by
          unfold loopPotential at hpot ⊢
          rw [hq] at hpot
          simp only [List.length_cons] at hpot
          dsimp only
          omega
        rcases ih _ hInv2 hpot2 with ⟨c1, c2, c3, c4, c5, c6⟩
        exact ⟨c1, c2, c3, c4, c5, c6⟩
      · rw [Bool.not_eq_true] at hstore
        simp only [runLoop, hq, hdep, hstore, if_true, Bool.false_eq_true, if_false]
        refine ⟨?_, by trivial, ?_, ?_, ?_, ?_⟩
        · intro hc
          simp at hc
        · rw [List.nodup_append]
          refine ⟨(List.nodup_append.mp hrest_nodup).2.1, List.nodup_singleton _, ?_⟩
          intro a ha hb
          rw [List.mem_singleton.mp hb] at ha
          exact hcid_not_inv ha
        · rw [hInv.result_keys]
          exact (List.nodup_append.mp hrest_nodup).2.1
        · rw [hInv.log_eq]
          exact hInv.log_nodup
        · intro hall
          exact absurd (hall item.node.id) (by rw [hstore]; simp)

theorem initial_inv (env : Env) (startNode : Node) :
    LoopInv env
      { queue := [{ node := startNode, dependencies := [] }],
        enqueued := [startNode.id], executed := [], results := [],
        invoked := [], enqueueLog := [startNode.id], requeues := 0,
        docs := [DocEvent.runCreated env.executionId], toasts := [],
        failed := none } := by
  constructor <;> simp [itemId]

theorem initial_potential (nodes : List Node) (env : Env) (startNode : Node) :
    loopPotential nodes
      { queue := [{ node := startNode, dependencies := [] }],
        enqueued := [startNode.id], executed := [], results := [],
        invoked := [], enqueueLog := [startNode.id], requeues := 0,
        docs := [DocEvent.runCreated env.executionId], toasts := [],
        failed := none } ≤ nodes.length + 1 := by
  unfold loopPotential
  dsimp only
  have h := remainingIds_le nodes [startNode.id]
  simp only [List.length_singleton]
  omega

/-- Claim C3: on every input graph, every handler registry and every
environment, after `executeWorkflow` completes each node id appears at
most once as a key of the returned results map, and each node is
dispatched to `executeTask` at most once per run (the `invoked` log of
the run has no duplicates). -/
theorem c3_no_duplicate_execution (handlers : HandlerRegistry) (env : Env)
    (nodes : List Node) (edges : List Edge) (options : ExecOptions) :
    ((executeWorkflow handlers env nodes edges options).results.map Prod.fst).Nodup ∧
      (executeWorkflow handlers env nodes edges options).invoked.Nodup := by
  unfold executeWorkflow
  rcases hstart : findStartNode nodes edges with _ | startNode
  · simp
  · rcases huser : options.userId with _ | uid
    · simp
    · dsimp only
      rcases runLoop_spec handlers env nodes edges (nodes.length + 1) _
          (initial_inv env startNode) (initial_potential nodes env startNode)
        with ⟨c1, c2, c3, c4, c5, c6⟩
      split
      · exact ⟨c4, c3⟩
      · exact ⟨c4, c3⟩

/-- Claim C10: for every finite graph, when the persistence layer
accepts every per-node write the scheduling loop drains its queue
within the provided fuel (it terminates with an empty queue), the
requeue branch is never taken (every popped item has its dependencies
already executed), and each node id is added to the enqueued set at
most once. -/
theorem c10_loop_termination (handlers : HandlerRegistry) (env : Env)
    (nodes : List Node) (edges : List Edge) (options : ExecOptions)
    (hall : ∀ i, env.storeOk i = true) :
    (executeWorkflow handlers env nodes edges options).queueLeft = 0 ∧
      (executeWorkflow handlers env nodes edges options).requeues = 0 ∧
      (executeWorkflow handlers env nodes edges options).enqueueLog.Nodup := by
  unfold executeWorkflow
  rcases hstart : findStartNode nodes edges with _ | startNode
  · simp
  · rcases huser : options.userId with _ | uid
    · simp
    · dsimp only
      rcases runLoop_spec handlers env nodes edges (nodes.length + 1) _
          (initial_inv env startNode) (initial_potential nodes env startNode)
        with ⟨c1, c2, c3, c4, c5, c6⟩
      split
      · refine ⟨?_, by rw [c2], c5⟩
        rw [c1 (c6 hall)]
        rfl
      · rename_i msg hmsg
        exact absurd (c6 hall) (by rw [hmsg]; simp)

theorem c10_loop_termination_witness :
    (executeWorkflow
        (fun _ => some (fun cfg _ =>
          { success := true, data := some { text := "t" },
            metadata := { nodeId := cfg.nodeId, executionId := "", timestamp := "" } }))
        {} [{ id := "n1" }, { id := "n2" }]
        [{ id := "e", source := "n1", target := "n2" }]
        { userId := some "u" }).queueLeft = 0 ∧
      (executeWorkflow
        (fun _ => some (fun cfg _ =>
          { success := true, data := some { text := "t" },
            metadata := { nodeId := cfg.nodeId, executionId := "", timestamp := "" } }))
        {} [{ id := "n1" }, { id := "n2" }]
        [{ id := "e", source := "n1", target := "n2" }]
        { userId := some "u" }).requeues = 0 ∧
      (executeWorkflow
        (fun _ => some (fun cfg _ =>
          { success := true, data := some { text := "t" },
            metadata := { nodeId := cfg.nodeId, executionId := "", timestamp := "" } }))
        {} [{ id := "n1" }, { id := "n2" }]
        [{ id := "e", source := "n1", target := "n2" }]
        { userId := some "u" }).enqueueLog.Nodup :=
  c10_loop_termination
    (fun _ => some (fun cfg _ =>
      { success := true, data := some { text := "t" },
        metadata := { nodeId := cfg.nodeId, executionId := "", timestamp := "" } }))
    {} [{ id := "n1" }, { id := "n2" }]
    [{ id := "e", source := "n1", target := "n2" }]
    { userId := some "u" } (fun _ => rfl)

/-- Claim C1: error-path routing.  On the graph start→A where A has
exactly two outgoing edges, a `success` edge to B and an `error` edge
to C, with the registered handler returning the failed result `r` for
node A (and succeeding elsewhere), `executeWorkflow` executes C — its
id is a key of the returned results map — and does not execute B. -/
theorem c1_error_path_routing (r : TaskResult) (h : r.success = false) :
    let out := executeWorkflow
      (fun t => if t = "aiTask" then
        some (fun cfg _ =>
          if cfg.nodeId = "A" then r
          else { success := true, data := some { text := "ok" },
                 metadata := { nodeId := cfg.nodeId, executionId := "",
                               timestamp := "" } })
        else none)
      {} [{ id := "start" }, { id := "A" }, { id := "B" }, { id := "C" }]
      [{ id := "e1", source := "start", target := "A" },
       { id := "e2", source := "A", target := "B",
         data := some { condition := some "success" } },
       { id := "e3", source := "A", target := "C",
         data := some { condition := some "error" } }]
      { userId := some "u" }
    "C" ∈ out.results.map Prod.fst ∧ "B" ∉ out.results.map Prod.fst := by
  intro out
  obtain ⟨succ, rdata, rerr, rmeta⟩ := r
  dsimp only at h
  subst h
  show "C" ∈ out.results.map Prod.fst ∧ "B" ∉ out.results.map Prod.fst
  have hkeys : out.results.map Prod.fst = ["start", "A", "C"] := rfl
  rw [hkeys]
  exact ⟨by decide, by decide⟩

theorem c1_error_path_routing_witness :
    let out := executeWorkflow
      (fun t => if t = "aiTask" then
        some (fun cfg _ =>
          if cfg.nodeId = "A" then
            { success := false, error := some "boom",
              metadata := { nodeId := "A", executionId := "", timestamp := "t" } }
          else { success := true, data := some { text := "ok" },
                 metadata := { nodeId := cfg.nodeId, executionId := "",
                               timestamp := "" } })
        else none)
      {} [{ id := "start" }, { id := "A" }, { id := "B" }, { id := "C" }]
      [{ id := "e1", source := "start", target := "A" },
       { id := "e2", source := "A", target := "B",
         data := some { condition := some "success" } },
       { id := "e3", source := "A", target := "C",
         data := some { condition := some "error" } }]
      { userId := some "u" }
    "C" ∈ out.results.map Prod.fst ∧ "B" ∉ out.results.map Prod.fst :=
  c1_error_path_routing
    { success := false, error := some "boom",
      metadata := { nodeId := "A", executionId := "", timestamp := "t" } } rfl

end Workflow
